import Mathlib

/-!
Verification of the selection-and-application engine of `gh_cherry`.

The Rust sources are shallowly embedded: pure fragments become Lean
functions, the effectful GitHub / libgit2 calls are modelled by explicit
oracles (`Remote`, `GitEnv`, `PickEnv`) together with an instrumented
interpreter that records the trace of remote calls.  Times are seconds
since the epoch as `Int`; a compiled regular expression is modelled as a
match predicate `String → Bool`, and regex compilation as an oracle
`String → Option (String → Bool)` (the `regex` crate is an external
library; the engine only depends on compile success and the resulting
predicate).
-/

/-- `config::TagConfig` (src/config/mod.rs). -/
structure TagConfig where
  sprint_pattern : String
  environment : String
  pending_tag : String
  completed_tag : String
  deriving Repr, DecidableEq

/-- `config::GitHubConfig` (src/config/mod.rs). -/
structure GitHubConfig where
  owner : String
  repo : String
  base_branch : String
  target_branch : String
  cherry_pick_source_branch : String
  branch_name_template : String
  deriving Repr, DecidableEq

/-- `config::UiConfig` (src/config/mod.rs). -/
structure UiConfig where
  days_back : Nat
  page_size : Nat
  only_forked_repos : Bool
  deriving Repr, DecidableEq

/-- `config::Config` (src/config/mod.rs). -/
structure Config where
  github : GitHubConfig
  tags : TagConfig
  ui : UiConfig
  deriving Repr, DecidableEq

/-- `util::short_sha` (src/util.rs): first 8 characters when long enough. -/
def short_sha (sha : String) : String :=
  if sha.length ≥ 8 then ⟨sha.data.take 8⟩ else sha

/-- `github::pr_matches_criteria` (src/github/mod.rs:349-354): the label
set must contain a label matched by the sprint regex, the literal
environment label, and the literal pending label. -/
def pr_matches_criteria (config : Config) (labels : List String)
    (sprint_regex : String → Bool) : Bool :=
  let has_sprint_tag := labels.any (fun label => sprint_regex label)
  let has_env_tag := labels.any (fun label => label == config.tags.environment)
  let has_pending_tag := labels.any (fun label => label == config.tags.pending_tag)
  has_sprint_tag && has_env_tag && has_pending_tag

/-- The label transformation of `GitHubClient::update_pr_labels`
(src/github/mod.rs:207-213): retain labels different from the pending
tag, then push the completed tag when it is not already present. -/
def update_pr_labels_transform (config : Config) (labels : List String) :
    List String :=
  let retained := labels.filter (fun label => label != config.tags.pending_tag)
  if retained.contains config.tags.completed_tag then retained
  else retained ++ [config.tags.completed_tag]

/-- C1: the qualification predicate holds iff the label list has a
regex-matching label, the literal environment label and the literal
pending label; it is false as soon as one of the three is missing. -/
theorem pr_matches_criteria_iff (config : Config) (labels : List String)
    (sprint_regex : String → Bool) :
    pr_matches_criteria config labels sprint_regex = true ↔
      (∃ l ∈ labels, sprint_regex l = true) ∧
        config.tags.environment ∈ labels ∧
        config.tags.pending_tag ∈ labels := by
  simp only [pr_matches_criteria, List.any_eq_true, Bool.and_eq_true, beq_iff_eq]
  constructor
  · rintro ⟨⟨⟨l₁, h₁, hm⟩, l₂, h₂, he⟩, l₃, h₃, hp⟩
    exact ⟨⟨l₁, h₁, hm⟩, he ▸ h₂, hp ▸ h₃⟩
  · rintro ⟨⟨l₁, h₁, hm⟩, he, hp⟩
    exact ⟨⟨⟨l₁, h₁, hm⟩, _, he, rfl⟩, _, hp, rfl⟩

/-- C1 witness: the spec's own example instance. -/
theorem pr_matches_criteria_iff_witness :
    pr_matches_criteria
      ⟨⟨"", "", "main", "main", "main", "t"⟩,
       ⟨"S[0-9]+", "DEV", "pending cherrypick", "cherry picked"⟩,
       ⟨7, 20, false⟩⟩
      ["S12", "DEV", "pending cherrypick"]
      (fun s => s == "S12") = true :=
  (pr_matches_criteria_iff _ _ _).mpr
    ⟨⟨"S12", by decide, by decide⟩, by decide, by decide⟩

/-- A sample configuration used to instantiate hypotheses of the theorems
below on concrete inputs. -/
def cfgEx : Config :=
  { github :=
      { owner := "o", repo := "r", base_branch := "main",
        target_branch := "release", cherry_pick_source_branch := "main",
        branch_name_template := "cherry-pick/T" },
    tags :=
      { sprint_pattern := "S", environment := "DEV",
        pending_tag := "pending cherrypick", completed_tag := "cherry picked" },
    ui := { days_back := 7, page_size := 20, only_forked_repos := false } }

/-- C6: on a duplicate-free remote label set, the post-success label
update is idempotent, removes the pending tag, and leaves the completed
tag present exactly once. -/
theorem update_pr_labels_idempotent (config : Config) (labels : List String)
    (hnd : labels.Nodup)
    (hne : config.tags.pending_tag ≠ config.tags.completed_tag) :
    update_pr_labels_transform config (update_pr_labels_transform config labels) =
        update_pr_labels_transform config labels ∧
      config.tags.pending_tag ∉ update_pr_labels_transform config labels ∧
      (update_pr_labels_transform config labels).count
          config.tags.completed_tag = 1 := by
  rcases config with ⟨gh, ⟨sp, env, p, c⟩, ui⟩
  simp only at hne
  simp only [update_pr_labels_transform]
  have hpR : p ∉ labels.filter (fun label => label != p) := by
    simp [List.mem_filter]
  have hRnd : (labels.filter (fun label => label != p)).Nodup :=
    hnd.filter _
  have hRself :
      (labels.filter (fun label => label != p)).filter
          (fun label => label != p) =
        labels.filter (fun label => label != p) :=
    List.filter_eq_self.mpr (fun a ha => by
      rcases List.mem_filter.mp ha with ⟨-, h⟩
      exact h)
  by_cases hcR : (labels.filter (fun label => label != p)).contains c = true
  · have hcmem : c ∈ labels.filter (fun label => label != p) := by
      rw [List.contains] at hcR
      exact List.elem_iff.mp hcR
    simp only [hcR, if_true]
    refine ⟨?_, hpR, List.count_eq_one_of_mem hRnd hcmem⟩
    rw [hRself]
    simp only [hcR, if_true]
  · have hcnot : c ∉ labels.filter (fun label => label != p) := by
      intro h
      exact hcR (by rw [List.contains]; exact List.elem_iff.mpr h)
    simp only [hcR, if_false, Bool.false_eq_true]
    have happ :
        (labels.filter (fun label => label != p) ++ [c]).filter
            (fun label => label != p) =
          labels.filter (fun label => label != p) ++ [c] := by
      rw [List.filter_append, hRself]
      simp [bne_iff_ne, Ne.symm hne]
    have hcmem' : c ∈ labels.filter (fun label => label != p) ++ [c] := by
      simp
    have hcontains' :
        (labels.filter (fun label => label != p) ++ [c]).contains c = true := by
      rw [List.contains]; exact List.elem_iff.mpr hcmem'
    refine ⟨?_, ?_, ?_⟩
    · rw [happ, hcontains']; simp
    · intro h
      rcases List.mem_append.mp h with h | h
      · exact hpR h
      · simp at h; exact hne h
    · rw [List.count_append, List.count_eq_zero.mpr hcnot]
      simp

/-- C6 witness: concrete duplicate-free label set under `cfgEx`. -/
theorem update_pr_labels_idempotent_witness :
    update_pr_labels_transform cfgEx (update_pr_labels_transform cfgEx
        ["S12", "DEV", "pending cherrypick"]) =
      update_pr_labels_transform cfgEx ["S12", "DEV", "pending cherrypick"] ∧
    cfgEx.tags.pending_tag ∉
      update_pr_labels_transform cfgEx ["S12", "DEV", "pending cherrypick"] ∧
    (update_pr_labels_transform cfgEx
        ["S12", "DEV", "pending cherrypick"]).count
      cfgEx.tags.completed_tag = 1 :=
  update_pr_labels_idempotent cfgEx ["S12", "DEV", "pending cherrypick"]
    (by decide) (by decide)

/-- C10: the label update is a frame transformation: labels other than
the pending and completed tags are preserved with their relative order,
and nothing but the completed tag is ever added. -/
theorem update_pr_labels_frame (config : Config) (labels : List String) :
    (update_pr_labels_transform config labels).filter
        (fun l => l != config.tags.pending_tag &&
          l != config.tags.completed_tag) =
      labels.filter
        (fun l => l != config.tags.pending_tag &&
          l != config.tags.completed_tag) ∧
    ∀ l ∈ update_pr_labels_transform config labels,
      l ∈ labels ∨ l = config.tags.completed_tag := by
  rcases config with ⟨gh, ⟨sp, env, p, c⟩, ui⟩
  simp only [update_pr_labels_transform]
  have hff :
      (labels.filter (fun label => label != p)).filter
          (fun l => l != p && l != c) =
        labels.filter (fun l => l != p && l != c) := by
    rw [List.filter_filter]
    exact List.filter_congr (fun a _ => by
      cases h : a != p <;> simp [h])
  constructor
  · by_cases hcR : (labels.filter (fun label => label != p)).contains c = true
    · simp only [hcR, if_true]
      exact hff
    · simp only [hcR, if_false, Bool.false_eq_true]
      rw [List.filter_append, hff]
      simp
  · intro l hl
    by_cases hcR : (labels.filter (fun label => label != p)).contains c = true
    · simp only [hcR, if_true] at hl
      exact Or.inl (List.mem_filter.mp hl).1
    · simp only [hcR, if_false, Bool.false_eq_true] at hl
      rcases List.mem_append.mp hl with h | h
      · exact Or.inl (List.mem_filter.mp h).1
      · simp at h
        exact Or.inr h

/-- C10 witness: a surviving label of the concrete update was already
present in the original list. -/
theorem update_pr_labels_frame_witness :
    "S12" ∈ (["S12", "DEV", "pending cherrypick"] : List String) ∨
      "S12" = cfgEx.tags.completed_tag :=
  (update_pr_labels_frame cfgEx ["S12", "DEV", "pending cherrypick"]).2
    "S12" (by decide)

/-- A pull-request item as delivered by one page of the list endpoint:
the fields of `octocrab::models::pulls::PullRequest` that
`list_matching_prs` reads.  Timestamps are seconds since the epoch. -/
structure PrItem where
  number : Nat
  title : Option String
  user_login : Option String
  created_at : Option Int
  updated_at : Option Int
  head_sha : String
  base_ref : String
  head_ref : String
  deriving Repr, DecidableEq

/-- `github::CommitInfo` (src/github/mod.rs:26-32). -/
structure CommitInfo where
  sha : String
  message : String
  author : String
  date : Int
  deriving Repr, DecidableEq

/-- `github::PrInfo` (src/github/mod.rs:12-24). -/
structure PrInfo where
  number : Nat
  title : String
  author : String
  created_at : Int
  updated_at : Int
  labels : List String
  commits : List CommitInfo
  head_sha : String
  base_ref : String
  head_ref : String
  deriving Repr, DecidableEq

/-- `pr.updated_at.unwrap_or(pr.created_at.unwrap_or(Utc::now()))`
(src/github/mod.rs:113). -/
def effective_update_time (now : Int) (pr : PrItem) : Int :=
  pr.updated_at.getD (pr.created_at.getD now)

/-- The `PrInfo` built for a qualifying item (src/github/mod.rs:126-137). -/
def mkPrInfo (now : Int) (pr : PrItem) (labels : List String)
    (commits : List CommitInfo) : PrInfo :=
  { number := pr.number
    title := pr.title.getD ""
    author := pr.user_login.getD ""
    created_at := pr.created_at.getD now
    updated_at := pr.updated_at.getD (pr.created_at.getD now)
    labels := labels
    commits := commits
    head_sha := pr.head_sha
    base_ref := pr.base_ref
    head_ref := pr.head_ref }

/-- The remote GitHub endpoints used by selection, as an oracle.  The
`nextPages` list is consumed in order; exhausting it models the final
`get_page` call answering `None`. -/
structure Remote where
  firstPage : Except String (List PrItem)
  nextPages : List (Except String (List PrItem))
  labelsOf : Nat → Except String (List String)
  commitsOf : Nat → Except String (List CommitInfo)

/-- View of an `Except` value as a sum, to derive decidable equality. -/
def exceptToSum {ε α : Type} : Except ε α → ε ⊕ α
  | .error e => .inl e
  | .ok a => .inr a

instance {ε α : Type} [DecidableEq ε] [DecidableEq α] :
    DecidableEq (Except ε α) := fun a b =>
  decidable_of_iff (exceptToSum a = exceptToSum b)
    (by cases a <;> cases b <;> simp [exceptToSum])

/-- One issued remote call, together with the response received. -/
inductive ApiCall where
  | listPage (resp : Except String (List PrItem))
  | nextPage (resp : Except String (Option (List PrItem)))
  | getLabels (number : Nat) (resp : Except String (List String))
  | getCommits (number : Nat) (resp : Except String (List CommitInfo))
  deriving Repr, DecidableEq

/-- The error carried by a failed remote call, if the call failed. -/
def callErr : ApiCall → Option String
  | .listPage (.error e) => some e
  | .nextPage (.error e) => some e
  | .getLabels _ (.error e) => some e
  | .getCommits _ (.error e) => some e
  | _ => none

/-- The numbers of the items whose labels were fetched, in order. -/
def labelCallNumbers (tr : List ApiCall) : List Nat :=
  tr.filterMap (fun cl => match cl with
    | .getLabels n _ => some n
    | _ => none)

/-- How many page-continuation requests the trace contains. -/
def nextPageCalls (tr : List ApiCall) : Nat :=
  tr.countP (fun cl => match cl with
    | .nextPage _ => true
    | _ => false)

/-- The `for pr in &page` loop of `list_matching_prs`
(src/github/mod.rs:111-141): date cutoff check, label fetch,
qualification test, commit fetch.  Returns the issued calls and either
the first error or the collected items plus the `stop_due_to_date`
flag. -/
def scanPage (config : Config) (sprint_regex : String → Bool) (r : Remote)
    (now since : Int) :
    List PrItem → List ApiCall × Except String (List PrInfo × Bool)
  | [] => ([], .ok ([], false))
  | pr :: rest =>
    if effective_update_time now pr < since then ([], .ok ([], true))
    else
      match r.labelsOf pr.number with
      | .error e => ([.getLabels pr.number (.error e)], .error e)
      | .ok labels =>
        if pr_matches_criteria config labels sprint_regex then
          match r.commitsOf pr.number with
          | .error e =>
              ([.getLabels pr.number (.ok labels),
                .getCommits pr.number (.error e)], .error e)
          | .ok commits =>
            let res := scanPage config sprint_regex r now since rest
            (.getLabels pr.number (.ok labels) ::
              .getCommits pr.number (.ok commits) :: res.1,
             res.2.map (fun x => (mkPrInfo now pr labels commits :: x.1, x.2)))
        else
          let res := scanPage config sprint_regex r now since rest
          (.getLabels pr.number (.ok labels) :: res.1, res.2)

/-- The outer `loop` of `list_matching_prs` (src/github/mod.rs:109-157):
scan the current page, then either stop due to the date cutoff or
request the next page. -/
def scanPages (config : Config) (sprint_regex : String → Bool) (r : Remote)
    (now since : Int) :
    List PrItem → List (Except String (List PrItem)) →
      List ApiCall × Except String (List PrInfo)
  | page, [] =>
    match scanPage config sprint_regex r now since page with
    | (tr, .error e) => (tr, .error e)
    | (tr, .ok (found, true)) => (tr, .ok found)
    | (tr, .ok (found, false)) => (tr ++ [.nextPage (.ok none)], .ok found)
  | page, .error e :: _ =>
    match scanPage config sprint_regex r now since page with
    | (tr, .error e') => (tr, .error e')
    | (tr, .ok (found, true)) => (tr, .ok found)
    | (tr, .ok (_, false)) => (tr ++ [.nextPage (.error e)], .error e)
  | page, .ok p :: pending' =>
    match scanPage config sprint_regex r now since page with
    | (tr, .error e) => (tr, .error e)
    | (tr, .ok (found, true)) => (tr, .ok found)
    | (tr, .ok (found, false)) =>
      let res := scanPages config sprint_regex r now since p pending'
      (tr ++ .nextPage (.ok (some p)) :: res.1,
       res.2.map (fun l => found ++ l))

/-- `GitHubClient::list_matching_prs` (src/github/mod.rs:81-161): the
initial page request is issued first, then the sprint pattern is
compiled, then the pages are scanned.  `compile_regex` models
`Regex::new` (`None` = invalid pattern); the returned trace lists every
remote call issued. -/
def list_matching_prs (config : Config)
    (compile_regex : String → Option (String → Bool)) (r : Remote)
    (now : Int) : List ApiCall × Except String (List PrInfo) :=
  let since := now - 86400 * (config.ui.days_back : Int)
  match r.firstPage with
  | .error e => ([.listPage (.error e)], .error e)
  | .ok page =>
    match compile_regex config.tags.sprint_pattern with
    | none => ([.listPage (.ok page)], .error "Invalid sprint pattern regex")
    | some sprint_regex =>
      let res := scanPages config sprint_regex r now since page r.nextPages
      (.listPage (.ok page) :: res.1, res.2)

/-- A compilation oracle on which every pattern is invalid. -/
def compileNone : String → Option (String → Bool) := fun _ => none

/-- A remote whose first page is empty and whose other endpoints always
succeed. -/
def remoteEmptyEx : Remote :=
  { firstPage := .ok [], nextPages := [], labelsOf := fun _ => .ok [],
    commitsOf := fun _ => .ok [] }

/-- C7 counterexample: with an invalid sprint pattern, selection does
fail, but only after the initial page-listing request has been issued —
the trace of remote calls is not empty, contradicting "fails fast before
issuing any remote API call". -/
theorem invalid_regex_still_issues_a_call :
    (list_matching_prs cfgEx compileNone remoteEmptyEx 0).2 =
        .error "Invalid sprint pattern regex" ∧
      (list_matching_prs cfgEx compileNone remoteEmptyEx 0).1 =
        [.listPage (.ok [])] ∧
      (list_matching_prs cfgEx compileNone remoteEmptyEx 0).1 ≠ [] := by
  refine ⟨rfl, rfl, ?_⟩
  exact List.cons_ne_nil _ _

/-- C7 amended: with an invalid sprint pattern, selection fails with the
pattern error right after the single initial page-listing request; no
label fetch, commit fetch, or page-continuation request is ever
issued. -/
theorem invalid_regex_fails_after_first_page (config : Config)
    (compile_regex : String → Option (String → Bool)) (r : Remote)
    (now : Int) (page : List PrItem)
    (hpage : r.firstPage = .ok page)
    (hbad : compile_regex config.tags.sprint_pattern = none) :
    (list_matching_prs config compile_regex r now).1 =
        [.listPage (.ok page)] ∧
      (list_matching_prs config compile_regex r now).2 =
        .error "Invalid sprint pattern regex" := by
  simp [list_matching_prs, hpage, hbad]

/-- C7 witness for the amended statement, on the concrete remote. -/
theorem invalid_regex_fails_after_first_page_witness :
    (list_matching_prs cfgEx compileNone remoteEmptyEx 0).1 =
        [.listPage (.ok [])] ∧
      (list_matching_prs cfgEx compileNone remoteEmptyEx 0).2 =
        .error "Invalid sprint pattern regex" :=
  invalid_regex_fails_after_first_page cfgEx compileNone remoteEmptyEx 0 []
    rfl rfl

lemma scanPage_cons_old (config : Config) (sprint_regex : String → Bool)
    (r : Remote) (now since : Int) (pr : PrItem) (rest : List PrItem)
    (h : effective_update_time now pr < since) :
    scanPage config sprint_regex r now since (pr :: rest) =
      ([], .ok ([], true)) := by
  simp [scanPage, h]

lemma scanPage_cons_labels_err (config : Config)
    (sprint_regex : String → Bool) (r : Remote) (now since : Int)
    (pr : PrItem) (rest : List PrItem) (e : String)
    (h : ¬ effective_update_time now pr < since)
    (hl : r.labelsOf pr.number = .error e) :
    scanPage config sprint_regex r now since (pr :: rest) =
      ([.getLabels pr.number (.error e)], .error e) := by
  simp [scanPage, h, hl]

lemma scanPage_cons_nomatch (config : Config) (sprint_regex : String → Bool)
    (r : Remote) (now since : Int) (pr : PrItem) (rest : List PrItem)
    (labels : List String)
    (h : ¬ effective_update_time now pr < since)
    (hl : r.labelsOf pr.number = .ok labels)
    (hq : pr_matches_criteria config labels sprint_regex = false) :
    scanPage config sprint_regex r now since (pr :: rest) =
      (.getLabels pr.number (.ok labels) ::
          (scanPage config sprint_regex r now since rest).1,
        (scanPage config sprint_regex r now since rest).2) := by
  simp [scanPage, h, hl, hq]

lemma scanPage_cons_commits_err (config : Config)
    (sprint_regex : String → Bool) (r : Remote) (now since : Int)
    (pr : PrItem) (rest : List PrItem) (labels : List String) (e : String)
    (h : ¬ effective_update_time now pr < since)
    (hl : r.labelsOf pr.number = .ok labels)
    (hq : pr_matches_criteria config labels sprint_regex = true)
    (hc : r.commitsOf pr.number = .error e) :
    scanPage config sprint_regex r now since (pr :: rest) =
      ([.getLabels pr.number (.ok labels),
        .getCommits pr.number (.error e)], .error e) := by
  simp [scanPage, h, hl, hq, hc]

lemma scanPage_cons_match (config : Config) (sprint_regex : String → Bool)
    (r : Remote) (now since : Int) (pr : PrItem) (rest : List PrItem)
    (labels : List String) (commits : List CommitInfo)
    (h : ¬ effective_update_time now pr < since)
    (hl : r.labelsOf pr.number = .ok labels)
    (hq : pr_matches_criteria config labels sprint_regex = true)
    (hc : r.commitsOf pr.number = .ok commits) :
    scanPage config sprint_regex r now since (pr :: rest) =
      (.getLabels pr.number (.ok labels) ::
          .getCommits pr.number (.ok commits) ::
          (scanPage config sprint_regex r now since rest).1,
        (scanPage config sprint_regex r now since rest).2.map
          (fun x => (mkPrInfo now pr labels commits :: x.1, x.2))) := by
  simp [scanPage, h, hl, hq, hc]

lemma scanPages_step_err (config : Config) (sprint_regex : String → Bool)
    (r : Remote) (now since : Int) (page : List PrItem)
    (pending : List (Except String (List PrItem))) (tr : List ApiCall)
    (e : String)
    (hsp : scanPage config sprint_regex r now since page = (tr, .error e)) :
    scanPages config sprint_regex r now since page pending = (tr, .error e) := by
  cases pending with
  | nil => rw [scanPages, hsp]
  | cons hd t =>
      cases hd with
      | error e' => rw [scanPages, hsp]
      | ok p => rw [scanPages, hsp]

lemma scanPages_step_stop (config : Config) (sprint_regex : String → Bool)
    (r : Remote) (now since : Int) (page : List PrItem)
    (pending : List (Except String (List PrItem))) (tr : List ApiCall)
    (found : List PrInfo)
    (hsp : scanPage config sprint_regex r now since page =
      (tr, .ok (found, true))) :
    scanPages config sprint_regex r now since page pending =
      (tr, .ok found) := by
  cases pending with
  | nil => rw [scanPages, hsp]
  | cons hd t =>
      cases hd with
      | error e' => rw [scanPages, hsp]
      | ok p => rw [scanPages, hsp]

lemma scanPages_step_last (config : Config) (sprint_regex : String → Bool)
    (r : Remote) (now since : Int) (page : List PrItem) (tr : List ApiCall)
    (found : List PrInfo)
    (hsp : scanPage config sprint_regex r now since page =
      (tr, .ok (found, false))) :
    scanPages config sprint_regex r now since page [] =
      (tr ++ [.nextPage (.ok none)], .ok found) := by
  rw [scanPages, hsp]

lemma scanPages_step_next_err (config : Config)
    (sprint_regex : String → Bool) (r : Remote) (now since : Int)
    (page : List PrItem) (pending : List (Except String (List PrItem)))
    (tr : List ApiCall) (found : List PrInfo) (e : String)
    (hsp : scanPage config sprint_regex r now since page =
      (tr, .ok (found, false))) :
    scanPages config sprint_regex r now since page (.error e :: pending) =
      (tr ++ [.nextPage (.error e)], .error e) := by
  rw [scanPages, hsp]

lemma scanPages_step_next_ok (config : Config)
    (sprint_regex : String → Bool) (r : Remote) (now since : Int)
    (page p : List PrItem) (pending : List (Except String (List PrItem)))
    (tr : List ApiCall) (found : List PrInfo)
    (hsp : scanPage config sprint_regex r now since page =
      (tr, .ok (found, false))) :
    scanPages config sprint_regex r now since page (.ok p :: pending) =
      (tr ++ .nextPage (.ok (some p)) ::
          (scanPages config sprint_regex r now since p pending).1,
        (scanPages config sprint_regex r now since p pending).2.map
          (fun l => found ++ l)) := by
  rw [scanPages, hsp]

lemma scanPage_calls (config : Config) (sprint_regex : String → Bool)
    (r : Remote) (now since : Int) (page : List PrItem) :
    (∀ v, (scanPage config sprint_regex r now since page).2 = .ok v →
      ∀ cl ∈ (scanPage config sprint_regex r now since page).1,
        callErr cl = none) ∧
    (∀ e, (scanPage config sprint_regex r now since page).2 = .error e →
      ∃ cl ∈ (scanPage config sprint_regex r now since page).1,
        callErr cl = some e) := by
  induction page with
  | nil =>
      refine ⟨?_, ?_⟩
      · intro v _ cl hcl
        simp [scanPage] at hcl
      · intro e he
        simp [scanPage] at he
  | cons pr rest ih =>
      by_cases hd : effective_update_time now pr < since
      · rw [scanPage_cons_old config sprint_regex r now since pr rest hd]
        refine ⟨?_, ?_⟩
        · intro v _ cl hcl
          simp at hcl
        · intro e he
          simp at he
      · cases hl : r.labelsOf pr.number with
        | error e₀ =>
            rw [scanPage_cons_labels_err config sprint_regex r now since pr
              rest e₀ hd hl]
            refine ⟨?_, ?_⟩
            · intro v hv
              simp at hv
            · intro e he
              simp only at he
              cases he
              exact ⟨.getLabels pr.number (.error e₀), by simp, rfl⟩
        | ok labels =>
            cases hq : pr_matches_criteria config labels sprint_regex with
            | false =>
                rw [scanPage_cons_nomatch config sprint_regex r now since pr
                  rest labels hd hl hq]
                obtain ⟨ihok, iherr⟩ := ih
                refine ⟨?_, ?_⟩
                · intro v hv cl hcl
                  rcases List.mem_cons.mp hcl with rfl | hcl'
                  · rfl
                  · exact ihok v hv cl hcl'
                · intro e he
                  obtain ⟨cl, hmem, hsome⟩ := iherr e he
                  exact ⟨cl, List.mem_cons_of_mem _ hmem, hsome⟩
            | true =>
                cases hc : r.commitsOf pr.number with
                | error e₀ =>
                    rw [scanPage_cons_commits_err config sprint_regex r now
                      since pr rest labels e₀ hd hl hq hc]
                    refine ⟨?_, ?_⟩
                    · intro v hv
                      simp at hv
                    · intro e he
                      simp only at he
                      cases he
                      exact ⟨.getCommits pr.number (.error e₀), by simp, rfl⟩
                | ok commits =>
                    rw [scanPage_cons_match config sprint_regex r now since pr
                      rest labels commits hd hl hq hc]
                    obtain ⟨ihok, iherr⟩ := ih
                    refine ⟨?_, ?_⟩
                    · intro v hv cl hcl
                      rcases hout : (scanPage config sprint_regex r now since
                          rest).2 with e₀ | v₀
                      · rw [hout] at hv
                        simp [Except.map] at hv
                      · rcases List.mem_cons.mp hcl with rfl | hcl'
                        · rfl
                        rcases List.mem_cons.mp hcl' with rfl | hcl''
                        · rfl
                        · exact ihok v₀ hout cl hcl''
                    · intro e he
                      rcases hout : (scanPage config sprint_regex r now since
                          rest).2 with e₀ | v₀
                      · rw [hout] at he
                        simp only [Except.map] at he
                        cases he
                        obtain ⟨cl, hmem, hsome⟩ := iherr _ hout
                        exact ⟨cl, by simp [hmem], hsome⟩
                      · rw [hout] at he
                        simp [Except.map] at he

lemma scanPages_calls (config : Config) (sprint_regex : String → Bool)
    (r : Remote) (now since : Int) :
    ∀ (pending : List (Except String (List PrItem))) (page : List PrItem),
      (∀ v,
        (scanPages config sprint_regex r now since page pending).2 = .ok v →
        ∀ cl ∈ (scanPages config sprint_regex r now since page pending).1,
          callErr cl = none) ∧
      (∀ e,
        (scanPages config sprint_regex r now since page pending).2 =
          .error e →
        ∃ cl ∈ (scanPages config sprint_regex r now since page pending).1,
          callErr cl = some e) := by
  intro pending
  induction pending with
  | nil =>
      intro page
      obtain ⟨pok, perr⟩ := scanPage_calls config sprint_regex r now since page
      rcases hsp : scanPage config sprint_regex r now since page with ⟨tr, out⟩
      rw [hsp] at pok perr
      cases out with
      | error e =>
          rw [scanPages_step_err config sprint_regex r now since page [] tr e
            hsp]
          refine ⟨?_, ?_⟩
          · intro v hv
            simp at hv
          · intro e' he
            simp only at he
            cases he
            exact perr e rfl
      | ok fs =>
          rcases fs with ⟨found, stop⟩
          cases stop with
          | true =>
              rw [scanPages_step_stop config sprint_regex r now since page []
                tr found hsp]
              refine ⟨?_, ?_⟩
              · intro v _ cl hcl
                exact pok (found, true) rfl cl hcl
              · intro e he
                simp at he
          | false =>
              rw [scanPages_step_last config sprint_regex r now since page tr
                found hsp]
              refine ⟨?_, ?_⟩
              · intro v _ cl hcl
                rcases List.mem_append.mp hcl with h | h
                · exact pok (found, false) rfl cl h
                · simp at h
                  rw [h]
                  rfl
              · intro e he
                simp at he
  | cons hd pending' ihp =>
      intro page
      obtain ⟨pok, perr⟩ := scanPage_calls config sprint_regex r now since page
      rcases hsp : scanPage config sprint_regex r now since page with ⟨tr, out⟩
      rw [hsp] at pok perr
      cases out with
      | error e =>
          rw [scanPages_step_err config sprint_regex r now since page
            (hd :: pending') tr e hsp]
          refine ⟨?_, ?_⟩
          · intro v hv
            simp at hv
          · intro e' he
            simp only at he
            cases he
            exact perr e rfl
      | ok fs =>
          rcases fs with ⟨found, stop⟩
          cases stop with
          | true =>
              rw [scanPages_step_stop config sprint_regex r now since page
                (hd :: pending') tr found hsp]
              refine ⟨?_, ?_⟩
              · intro v _ cl hcl
                exact pok (found, true) rfl cl hcl
              · intro e he
                simp at he
          | false =>
              cases hd with
              | error e =>
                  rw [scanPages_step_next_err config sprint_regex r now since
                    page pending' tr found e hsp]
                  refine ⟨?_, ?_⟩
                  · intro v hv
                    simp at hv
                  · intro e' he
                    simp only at he
                    cases he
                    exact ⟨.nextPage (.error e), by simp, rfl⟩
              | ok p =>
                  rw [scanPages_step_next_ok config sprint_regex r now since
                    page p pending' tr found hsp]
                  obtain ⟨qok, qerr⟩ := ihp p
                  refine ⟨?_, ?_⟩
                  · intro v hv cl hcl
                    rcases hout : (scanPages config sprint_regex r now since p
                        pending').2 with e₀ | v₀
                    · rw [hout] at hv
                      simp [Except.map] at hv
                    · rcases List.mem_append.mp hcl with h | h
                      · exact pok (found, false) rfl cl h
                      rcases List.mem_cons.mp h with rfl | h'
                      · rfl
                      · exact qok v₀ hout cl h'
                  · intro e he
                    rcases hout : (scanPages config sprint_regex r now since p
                        pending').2 with e₀ | v₀
                    · rw [hout] at he
                      simp only [Except.map] at he
                      cases he
                      obtain ⟨cl, hmem, hsome⟩ := qerr _ hout
                      exact ⟨cl, by simp [hmem], hsome⟩
                    · rw [hout] at he
                      simp [Except.map] at he

/-- C9: whenever any issued remote call fails, selection returns an
error carrying that call's underlying cause, and no partial result: the
qualifying items accumulated so far are not returned. -/
theorem selection_aborts_on_failure (config : Config)
    (compile_regex : String → Option (String → Bool)) (r : Remote)
    (now : Int)
    (hfail : ∃ cl ∈ (list_matching_prs config compile_regex r now).1,
      callErr cl ≠ none) :
    ∃ e, (list_matching_prs config compile_regex r now).2 = .error e ∧
      ∃ cl ∈ (list_matching_prs config compile_regex r now).1,
        callErr cl = some e := by
  obtain ⟨cl, hmem, hne⟩ := hfail
  cases hfp : r.firstPage with
  | error e =>
      refine ⟨e, ?_, .listPage (.error e), ?_, rfl⟩
      · simp [list_matching_prs, hfp]
      · simp [list_matching_prs, hfp]
  | ok page =>
      cases hcomp : compile_regex config.tags.sprint_pattern with
      | none =>
          exfalso
          have h1 : (list_matching_prs config compile_regex r now).1 =
              [.listPage (.ok page)] := by
            simp [list_matching_prs, hfp, hcomp]
          rw [h1] at hmem
          simp at hmem
          rw [hmem] at hne
          exact hne rfl
      | some m =>
          have h1 : (list_matching_prs config compile_regex r now).1 =
              .listPage (.ok page) ::
                (scanPages config m r now
                  (now - 86400 * (config.ui.days_back : Int)) page
                  r.nextPages).1 := by
            simp [list_matching_prs, hfp, hcomp]
          have h2 : (list_matching_prs config compile_regex r now).2 =
              (scanPages config m r now
                (now - 86400 * (config.ui.days_back : Int)) page
                r.nextPages).2 := by
            simp [list_matching_prs, hfp, hcomp]
          obtain ⟨sok, serr⟩ := scanPages_calls config m r now
            (now - 86400 * (config.ui.days_back : Int)) r.nextPages page
          rcases hout : (scanPages config m r now
              (now - 86400 * (config.ui.days_back : Int)) page
              r.nextPages).2 with e | v
          · obtain ⟨cl', hm', hs'⟩ := serr e hout
            refine ⟨e, by rw [h2, hout], cl', ?_, hs'⟩
            rw [h1]
            exact List.mem_cons_of_mem _ hm'
          · exfalso
            rw [h1] at hmem
            rcases List.mem_cons.mp hmem with rfl | hmem'
            · exact hne rfl
            · exact hne (sok v hout cl hmem')

/-- The date-cutoff test of the scan loop: the item is at least as
recent as the lookback cutoff. -/
def keepItem (now since : Int) (pr : PrItem) : Bool :=
  decide (since ≤ effective_update_time now pr)

/-- The stop condition of the scan loop (src/github/mod.rs:114). -/
def oldItem (now since : Int) (pr : PrItem) : Bool :=
  decide (effective_update_time now pr < since)

lemma keepItem_eq_not_oldItem (now since : Int) (pr : PrItem) :
    keepItem now since pr = !oldItem now since pr := by
  rw [keepItem, oldItem, ← decide_not]
  exact decide_eq_decide.mpr not_lt.symm

/-- A remote built from pure data: every endpoint succeeds. -/
def pureRemote (page0 : List PrItem) (rest : List (List PrItem))
    (labelsOf : Nat → List String) (commitsOf : Nat → List CommitInfo) :
    Remote :=
  { firstPage := .ok page0, nextPages := rest.map Except.ok,
    labelsOf := fun n => .ok (labelsOf n),
    commitsOf := fun n => .ok (commitsOf n) }

lemma takeWhile_append_stop {α : Type} (q : α → Bool) (l X : List α)
    (a : α) (ha : a ∈ l) (hq : q a = false) :
    (l ++ X).takeWhile q = l.takeWhile q := by
  induction l with
  | nil => cases ha
  | cons b t ih =>
      cases hb : q b with
      | false => simp [List.takeWhile_cons, hb]
      | true =>
          rcases List.mem_cons.mp ha with rfl | ha'
          · rw [hb] at hq; cases hq
          · simp [List.takeWhile_cons, hb, ih ha']

lemma takeWhile_append_all {α : Type} (q : α → Bool) (l X : List α)
    (h : ∀ a ∈ l, q a = true) :
    (l ++ X).takeWhile q = l ++ X.takeWhile q := by
  induction l with
  | nil => simp
  | cons b t ih =>
      have hb : q b = true := h b (List.mem_cons_self b t)
      simp only [List.cons_append, List.takeWhile_cons, hb, if_true]
      rw [ih (fun a ha => h a (List.mem_cons_of_mem _ ha))]

lemma takeWhile_keepItem_eq_filter (now since : Int) :
    ∀ l : List PrItem,
      l.Pairwise (fun a b =>
        effective_update_time now b ≤ effective_update_time now a) →
      l.takeWhile (keepItem now since) = l.filter (keepItem now since) := by
  intro l
  induction l with
  | nil => simp
  | cons a t ih =>
      intro hp
      rcases List.pairwise_cons.mp hp with ⟨hab, ht⟩
      cases hk : keepItem now since a with
      | true => simp [List.takeWhile_cons, List.filter_cons, hk, ih ht]
      | false =>
          have hall : ∀ b ∈ t, keepItem now since b = false := by
            intro b hb
            have h1 : ¬ since ≤ effective_update_time now a := by
              simpa [keepItem] using hk
            have h2 := hab b hb
            simp only [keepItem, decide_eq_false_iff_not]
            exact not_le.mpr (lt_of_le_of_lt h2 (not_le.mp h1))
          simp only [List.takeWhile_cons, hk, List.filter_cons,
            Bool.false_eq_true, if_false]
          exact (List.filter_eq_nil_iff.mpr (fun b hb => by
            simp [hall b hb])).symm

/-- The qualification test of an item under a pure label oracle. -/
def qualifying (config : Config) (m : String → Bool)
    (L : Nat → List String) (pr : PrItem) : Bool :=
  pr_matches_criteria config (L pr.number) m

/-- The `PrInfo` built for an item under pure label/commit oracles. -/
def toInfo (now : Int) (L : Nat → List String) (K : Nat → List CommitInfo)
    (pr : PrItem) : PrInfo :=
  mkPrInfo now pr (L pr.number) (K pr.number)

lemma scanPage_pure (config : Config) (m : String → Bool)
    (p0 : List PrItem) (rst : List (List PrItem))
    (L : Nat → List String) (K : Nat → List CommitInfo) (now since : Int)
    (page : List PrItem) :
    (scanPage config m (pureRemote p0 rst L K) now since page).2 =
        .ok (((page.takeWhile (keepItem now since)).filter
            (qualifying config m L)).map (toInfo now L K),
          page.any (oldItem now since)) ∧
      labelCallNumbers
          (scanPage config m (pureRemote p0 rst L K) now since page).1 =
        (page.takeWhile (keepItem now since)).map (fun pr => pr.number) ∧
      nextPageCalls
          (scanPage config m (pureRemote p0 rst L K) now since page).1 = 0 := by
  induction page with
  | nil => exact ⟨rfl, rfl, rfl⟩
  | cons pr rest ih =>
      obtain ⟨ih1, ih2, ih3⟩ := ih
      by_cases hd : effective_update_time now pr < since
      · have hk : keepItem now since pr = false := by
          simp only [keepItem, decide_eq_false_iff_not]
          exact not_le.mpr hd
        have ho : oldItem now since pr = true := by
          simpa [oldItem] using hd
        rw [scanPage_cons_old config m (pureRemote p0 rst L K) now since pr
          rest hd]
        refine ⟨?_, ?_, rfl⟩
        · simp [List.takeWhile_cons, hk, ho]
        · simp [labelCallNumbers, List.takeWhile_cons, hk]
      · have hk : keepItem now since pr = true := by
          simp only [keepItem, decide_eq_true_eq]
          exact not_lt.mp hd
        have ho : oldItem now since pr = false := by
          simpa [oldItem] using hd
        simp only [labelCallNumbers] at ih2
        simp only [nextPageCalls] at ih3
        cases hq : pr_matches_criteria config (L pr.number) m with
        | true =>
            rw [scanPage_cons_match config m (pureRemote p0 rst L K) now since
              pr rest (L pr.number) (K pr.number) hd rfl hq rfl]
            refine ⟨?_, ?_, ?_⟩
            · rw [ih1]
              simp [Except.map, List.takeWhile_cons, hk, ho,
                List.filter_cons, hq, qualifying, toInfo]
            · simp only [labelCallNumbers, List.filterMap_cons]
              simp [ih2, List.takeWhile_cons, hk]
            · simp only [nextPageCalls, List.countP_cons]
              simp [ih3]
        | false =>
            rw [scanPage_cons_nomatch config m (pureRemote p0 rst L K) now
              since pr rest (L pr.number) hd rfl hq]
            refine ⟨?_, ?_, ?_⟩
            · rw [ih1]
              simp [List.takeWhile_cons, hk, ho, List.filter_cons, hq,
                qualifying, toInfo]
            · simp only [labelCallNumbers, List.filterMap_cons]
              simp [ih2, List.takeWhile_cons, hk]
            · simp only [nextPageCalls, List.countP_cons]
              simp [ih3]

lemma scanPages_pure (config : Config) (m : String → Bool)
    (p0 : List PrItem) (rst : List (List PrItem))
    (L : Nat → List String) (K : Nat → List CommitInfo) (now since : Int) :
    ∀ (rest : List (List PrItem)) (page : List PrItem),
      (scanPages config m (pureRemote p0 rst L K) now since page
          (rest.map Except.ok)).2 =
        .ok ((((page ++ rest.flatten).takeWhile (keepItem now since)).filter
            (qualifying config m L)).map (toInfo now L K)) ∧
      labelCallNumbers (scanPages config m (pureRemote p0 rst L K) now since
          page (rest.map Except.ok)).1 =
        ((page ++ rest.flatten).takeWhile (keepItem now since)).map
          (fun pr => pr.number) ∧
      nextPageCalls (scanPages config m (pureRemote p0 rst L K) now since page
          (rest.map Except.ok)).1 =
        (page :: rest).findIdx (fun pg => pg.any (oldItem now since)) := by
  intro rest
  induction rest with
  | nil =>
      intro page
      obtain ⟨h1, h2, h3⟩ := scanPage_pure config m p0 rst L K now since page
      cases hany : page.any (oldItem now since) with
      | true =>
          rw [hany] at h1
          have hsp : scanPage config m (pureRemote p0 rst L K) now since
              page =
              ((scanPage config m (pureRemote p0 rst L K) now since page).1,
               .ok (((page.takeWhile (keepItem now since)).filter
                  (qualifying config m L)).map (toInfo now L K), true)) := by
            rw [← h1]
          rw [List.map_nil,
            scanPages_step_stop config m (pureRemote p0 rst L K) now since
              page [] _ _ hsp]
          refine ⟨by simp, ?_, ?_⟩
          · simpa using h2
          · simp [List.findIdx_cons, hany, h3]
      | false =>
          rw [hany] at h1
          have hsp : scanPage config m (pureRemote p0 rst L K) now since
              page =
              ((scanPage config m (pureRemote p0 rst L K) now since page).1,
               .ok (((page.takeWhile (keepItem now since)).filter
                  (qualifying config m L)).map (toInfo now L K), false)) := by
            rw [← h1]
          rw [List.map_nil,
            scanPages_step_last config m (pureRemote p0 rst L K) now since
              page _ _ hsp]
          refine ⟨by simp, ?_, ?_⟩
          · simp only [labelCallNumbers, List.filterMap_append] at h2 ⊢
            simp [h2]
          · simp only [nextPageCalls, List.countP_append] at h3 ⊢
            simp [h3, List.findIdx_cons, hany, List.findIdx_nil]
  | cons pg rest ihr =>
      intro page
      obtain ⟨h1, h2, h3⟩ := scanPage_pure config m p0 rst L K now since page
      cases hany : page.any (oldItem now since) with
      | true =>
          rw [hany] at h1
          have hsp : scanPage config m (pureRemote p0 rst L K) now since
              page =
              ((scanPage config m (pureRemote p0 rst L K) now since page).1,
               .ok (((page.takeWhile (keepItem now since)).filter
                  (qualifying config m L)).map (toInfo now L K), true)) := by
            rw [← h1]
          rw [scanPages_step_stop config m (pureRemote p0 rst L K) now since
            page ((pg :: rest).map Except.ok) _ _ hsp]
          obtain ⟨a, ha, holda⟩ := List.any_eq_true.mp hany
          have hka : keepItem now since a = false := by
            rw [keepItem_eq_not_oldItem, holda]
            rfl
          rw [takeWhile_append_stop (keepItem now since) page
            ((pg :: rest).flatten) a ha hka]
          refine ⟨by simp, by simpa using h2, ?_⟩
          simp [List.findIdx_cons, hany, h3]
      | false =>
          rw [hany] at h1
          have hsp : scanPage config m (pureRemote p0 rst L K) now since
              page =
              ((scanPage config m (pureRemote p0 rst L K) now since page).1,
               .ok (((page.takeWhile (keepItem now since)).filter
                  (qualifying config m L)).map (toInfo now L K), false)) := by
            rw [← h1]
          have hall : ∀ a ∈ page, keepItem now since a = true := by
            intro a ha
            have h0 : oldItem now since a = false := by
              have := List.any_eq_false.mp hany a ha
              simpa using this
            rw [keepItem_eq_not_oldItem, h0]
            rfl
          have htwp : page.takeWhile (keepItem now since) = page :=
            List.takeWhile_eq_self_iff.mpr hall
          have htw : (page ++ (pg :: rest).flatten).takeWhile
              (keepItem now since) =
              page ++ ((pg ++ rest.flatten).takeWhile (keepItem now since)) := by
            rw [List.flatten_cons]
            exact takeWhile_append_all (keepItem now since) page
              (pg ++ rest.flatten) hall
          obtain ⟨q1, q2, q3⟩ := ihr pg
          rw [List.map_cons,
            scanPages_step_next_ok config m (pureRemote p0 rst L K) now since
              page pg (rest.map Except.ok) _ _ hsp]
          refine ⟨?_, ?_, ?_⟩
          · rw [htw]
            simp only [q1, Except.map]
            simp [htwp, List.filter_append, List.map_append]
          · rw [htw]
            simp only [labelCallNumbers, List.filterMap_append,
              List.filterMap_cons] at h2 q2 ⊢
            simp [h2, q2, htwp]
          · simp only [nextPageCalls, List.countP_append,
              List.countP_cons] at h3 q3 ⊢
            simp [h3, q3, List.findIdx_cons, hany]

/-- C2: over monotonically non-increasing pages with a total remote, the
lookback cutoff stops the whole scan at the first page holding an item
older than the cutoff, fetches labels for exactly the items at least as
recent as the cutoff, and returns exactly the qualifying ones among
them. -/
theorem selection_lookback_cutoff (config : Config) (m : String → Bool)
    (now : Int) (page0 : List PrItem) (rest : List (List PrItem))
    (L : Nat → List String) (K : Nat → List CommitInfo)
    (hmono : (page0 ++ rest.flatten).Pairwise
      (fun a b => effective_update_time now b ≤ effective_update_time now a)) :
    (list_matching_prs config (fun _ => some m) (pureRemote page0 rest L K)
        now).2 =
      .ok ((((page0 ++ rest.flatten).filter
          (keepItem now (now - 86400 * (config.ui.days_back : Int)))).filter
          (qualifying config m L)).map (toInfo now L K)) ∧
    labelCallNumbers (list_matching_prs config (fun _ => some m)
        (pureRemote page0 rest L K) now).1 =
      ((page0 ++ rest.flatten).filter
        (keepItem now (now - 86400 * (config.ui.days_back : Int)))).map
        (fun pr => pr.number) ∧
    nextPageCalls (list_matching_prs config (fun _ => some m)
        (pureRemote page0 rest L K) now).1 =
      (page0 :: rest).findIdx (fun pg =>
        pg.any (oldItem now (now - 86400 * (config.ui.days_back : Int)))) := by
  obtain ⟨s1, s2, s3⟩ := scanPages_pure config m page0 rest L K now
    (now - 86400 * (config.ui.days_back : Int)) rest page0
  have hfix : (page0 ++ rest.flatten).takeWhile
      (keepItem now (now - 86400 * (config.ui.days_back : Int))) =
      (page0 ++ rest.flatten).filter
        (keepItem now (now - 86400 * (config.ui.days_back : Int))) :=
    takeWhile_keepItem_eq_filter now
      (now - 86400 * (config.ui.days_back : Int)) _ hmono
  rw [hfix] at s1 s2
  have e1 : (list_matching_prs config (fun _ => some m)
      (pureRemote page0 rest L K) now).1 =
      .listPage (.ok page0) ::
        (scanPages config m (pureRemote page0 rest L K) now
          (now - 86400 * (config.ui.days_back : Int)) page0
          (rest.map Except.ok)).1 := by
    simp [list_matching_prs, pureRemote]
  have e2 : (list_matching_prs config (fun _ => some m)
      (pureRemote page0 rest L K) now).2 =
      (scanPages config m (pureRemote page0 rest L K) now
        (now - 86400 * (config.ui.days_back : Int)) page0
        (rest.map Except.ok)).2 := by
    simp [list_matching_prs, pureRemote]
  refine ⟨?_, ?_, ?_⟩
  · rw [e2, s1]
  · rw [e1]
    simp only [labelCallNumbers, List.filterMap_cons] at s2 ⊢
    exact s2
  · rw [e1]
    simp only [nextPageCalls, List.countP_cons] at s3 ⊢
    simpa using s3

/-- A fresh item (inside the lookback window). -/
def prFreshEx : PrItem :=
  { number := 1, title := some "Fix", user_login := some "alice",
    created_at := some 900000, updated_at := some 1000000,
    head_sha := "aaaa", base_ref := "main", head_ref := "f1" }

/-- A stale item (outside the lookback window). -/
def prOldEx : PrItem :=
  { number := 2, title := some "Old", user_login := some "bob",
    created_at := some 500000, updated_at := some 600000,
    head_sha := "bbbb", base_ref := "main", head_ref := "f2" }

/-- C2 witness: two monotone pages around the cutoff, fully evaluated. -/
theorem selection_lookback_cutoff_witness :
    ([prFreshEx] ++ [[prOldEx]].flatten).Pairwise
        (fun a b => effective_update_time 1209600 b ≤
          effective_update_time 1209600 a) ∧
      (list_matching_prs cfgEx (fun _ => some (fun s => s == "S12"))
          (pureRemote [prFreshEx] [[prOldEx]]
            (fun _ => ["S12", "DEV", "pending cherrypick"]) (fun _ => []))
          1209600).2 =
        .ok (((([prFreshEx] ++ [[prOldEx]].flatten).filter
            (keepItem 1209600
              (1209600 - 86400 * (cfgEx.ui.days_back : Int)))).filter
            (qualifying cfgEx (fun s => s == "S12")
              (fun _ => ["S12", "DEV", "pending cherrypick"]))).map
          (toInfo 1209600 (fun _ => ["S12", "DEV", "pending cherrypick"])
            (fun _ => []))) :=
  ⟨by decide,
   (selection_lookback_cutoff cfgEx (fun s => s == "S12") 1209600 [prFreshEx]
      [[prOldEx]] (fun _ => ["S12", "DEV", "pending cherrypick"])
      (fun _ => []) (by decide)).1⟩

/-- An item whose labels endpoint fails. -/
def prItemEx : PrItem :=
  { number := 1, title := some "Test", user_login := some "alice",
    created_at := some 0, updated_at := some 0, head_sha := "abcd1234",
    base_ref := "main", head_ref := "feature" }

/-- A remote whose label endpoint always fails. -/
def remoteFailEx : Remote :=
  { firstPage := .ok [prItemEx], nextPages := [],
    labelsOf := fun _ => .error "boom", commitsOf := fun _ => .ok [] }

/-- C9 witness: a failing label fetch aborts the concrete selection with
its cause. -/
theorem selection_aborts_on_failure_witness :
    ∃ e, (list_matching_prs cfgEx (fun _ => some (fun _ => true))
        remoteFailEx 0).2 = .error e ∧
      ∃ cl ∈ (list_matching_prs cfgEx (fun _ => some (fun _ => true))
          remoteFailEx 0).1,
        callErr cl = some e :=
  selection_aborts_on_failure cfgEx (fun _ => some (fun _ => true))
    remoteFailEx 0
    ⟨.getLabels 1 (.error "boom"), by decide, by decide⟩


/-- The `git2::RepositoryState`s the engine distinguishes
(src/git/mod.rs:113-152). -/
inductive RepoState where
  | clean
  | cherryPickSequence
  | other (desc : String)
  deriving Repr, DecidableEq

/-- A commit object of the local object database.  `message` is optional
as in `git2::Commit::message` (invalid UTF-8 yields none); `tree`
abstracts the tree content by an identifier. -/
structure GCommit where
  sha : String
  message : Option String
  author : Option String
  tree : Nat
  parent : Option String
  deriving Repr, DecidableEq

/-- The index: its conflicting paths ("our" entries) and tree content. -/
structure GIndex where
  conflicts : List String
  tree : Nat
  deriving Repr, DecidableEq

/-- The local repository wrapped by `GitOperations`. -/
structure Repo where
  odb : List GCommit
  headSha : Option String
  workTree : Nat
  index : GIndex
  state : RepoState
  deriving Repr, DecidableEq

/-- The outcome of the `libgit2` cherrypick primitive
(`Repository::cherrypick`, src/git/mod.rs:108-110): it merges into the
index and working tree and never creates a commit. -/
inductive PickOutcome where
  | clean (tree : Nat)
  | conflicted (paths : List String) (tree : Nat)
  | strange (desc : String)
  | failed (e : String)
  deriving Repr, DecidableEq

/-- The external `libgit2` and git-config environment. -/
structure GitEnv where
  validOid : String → Bool
  merge : Repo → GCommit → PickOutcome
  freshSha : Repo → String
  userName : Option String
  userEmail : Option String

/-- `Repository::find_commit` (src/git/mod.rs:104). -/
def findCommit (r : Repo) (sha : String) : Option GCommit :=
  r.odb.find? (fun c => c.sha == sha)

/-- How a cherrypick outcome updates the repository (libgit2 semantics
behind src/git/mod.rs:108-113). -/
def applyCherrypickPrim (r : Repo) (o : PickOutcome) : Repo :=
  match o with
  | .clean t => { r with state := .clean, workTree := t, index := ⟨[], t⟩ }
  | .conflicted ps t =>
      { r with state := .cherryPickSequence, workTree := t, index := ⟨ps, t⟩ }
  | .strange d => { r with state := .other d }
  | .failed _ => r

/-- `GitOperations::get_signature` (src/git/mod.rs:229-241). -/
def get_signature (g : GitEnv) : Except String (String × String) :=
  match g.userName with
  | none => .error "Git user.name not configured"
  | some n =>
    match g.userEmail with
    | none => .error "Git user.email not configured"
    | some e => .ok (n, e)

/-- `GitOperations::get_conflicts` (src/git/mod.rs:155-173). -/
def get_conflicts (r : Repo) : List String := r.index.conflicts

/-- `git::CherrypickResult` (src/git/mod.rs:11-16). -/
structure CherrypickResult where
  success : Bool
  conflicts : List String
  commit_sha : Option String
  deriving Repr, DecidableEq

/-- `GitOperations::cherry_pick` (src/git/mod.rs:98-153): validate the
id, find the commit, run the cherrypick primitive, then dispatch on the
resulting repository state: Clean commits the index tree onto HEAD with
the original message, CherryPickSequence reports the conflicting paths,
anything else is a fatal error. -/
def cherry_pick (g : GitEnv) (r : Repo) (commit_sha : String) :
    Except String (Repo × CherrypickResult) :=
  if ¬ g.validOid commit_sha then
    .error ("Invalid commit SHA: " ++ commit_sha)
  else
    match findCommit r commit_sha with
    | none => .error ("Commit not found: " ++ commit_sha)
    | some c =>
      match g.merge r c with
      | .failed e => .error ("Failed to cherry-pick commit: " ++ e)
      | o =>
        let r1 := applyCherrypickPrim r o
        match r1.state with
        | .clean =>
          match get_signature g with
          | .error e => .error e
          | .ok sig =>
            match r1.headSha.bind (findCommit r1) with
            | none => .error "Failed to get HEAD reference"
            | some parent =>
              let newSha := g.freshSha r1
              let newCommit : GCommit :=
                { sha := newSha,
                  message := some (c.message.getD "Cherry-pick"),
                  author := some sig.1, tree := r1.index.tree,
                  parent := some parent.sha }
              let r2 : Repo :=
                { r1 with odb := newCommit :: r1.odb, headSha := some newSha }
              let okRes : CherrypickResult :=
                { success := true, conflicts := [],
                  commit_sha := some newSha }
              .ok (r2, okRes)
        | .cherryPickSequence =>
          let confRes : CherrypickResult :=
            { success := false, conflicts := get_conflicts r1,
              commit_sha := none }
          .ok (r1, confRes)
        | .other d =>
          .error ("Unexpected repository state after cherry-pick: " ++ d)

/-- `GitOperations::abort_cherry_pick` (src/git/mod.rs:214-227):
`cleanup_state` drops the sequencer state, then the working copy is
hard-reset to the tree of the HEAD commit. -/
def abort_cherry_pick (r : Repo) : Except String Repo :=
  let r1 : Repo := { r with state := RepoState.clean }
  match r1.headSha.bind (findCommit r1) with
  | none => .error "Failed to get HEAD reference"
  | some c => .ok { r1 with workTree := c.tree, index := ⟨[], c.tree⟩ }

lemma cherry_pick_cases (g : GitEnv) (r : Repo) (sha : String)
    (r' : Repo) (res : CherrypickResult)
    (h : cherry_pick g r sha = .ok (r', res)) :
    (res.success = true ∧ res.conflicts = [] ∧
      ∃ c ns, findCommit r sha = some c ∧ res.commit_sha = some ns ∧
        r'.headSha = some ns ∧ r'.state = RepoState.clean ∧
        ∃ nc, r'.odb = nc :: r.odb ∧ nc.sha = ns ∧
          nc.message = some (c.message.getD "Cherry-pick")) ∨
    (res.success = false ∧ res.commit_sha = none ∧ r'.odb = r.odb ∧
      r'.headSha = r.headSha ∧ r'.state = RepoState.cherryPickSequence ∧
      ∃ c ps t, findCommit r sha = some c ∧
        g.merge r c = PickOutcome.conflicted ps t ∧
        res.conflicts = ps ∧ r'.workTree = t ∧ r'.index = ⟨ps, t⟩) := by
  by_cases hv : g.validOid sha = true
  case neg => simp [cherry_pick, hv] at h
  cases hf : findCommit r sha with
  | none => simp [cherry_pick, hv, hf] at h
  | some c =>
    cases hm : g.merge r c with
    | failed e => simp [cherry_pick, hv, hf, hm] at h
    | strange d => simp [cherry_pick, hv, hf, hm, applyCherrypickPrim] at h
    | conflicted ps t =>
        right
        simp only [cherry_pick, hv, not_true_eq_false, if_false, hf, hm,
          applyCherrypickPrim, Except.ok.injEq, Prod.mk.injEq] at h
        obtain ⟨rfl, rfl⟩ := h
        exact ⟨rfl, rfl, rfl, rfl, rfl,
          c, ps, t, rfl, hm, rfl, rfl, rfl⟩
    | clean t =>
        left
        simp only [cherry_pick, hv, not_true_eq_false, if_false, hf, hm,
          applyCherrypickPrim] at h
        split at h
        · simp at h
        · split at h
          · simp at h
          · simp only [Except.ok.injEq, Prod.mk.injEq] at h
            obtain ⟨rfl, rfl⟩ := h
            exact ⟨rfl, rfl, c, _, rfl, rfl, rfl, rfl, _, rfl, rfl, rfl⟩

/-- C4: whenever `cherry_pick` returns a result rather than a fatal
error, either the replay was clean — success, no conflicts, a present
new commit id, and a new commit on the current branch carrying the
original commit's message — or it conflicted — failure, the conflicting
paths, no new id, and no commit added; any other repository state never
yields a result. -/
theorem cherry_pick_result_spec (g : GitEnv) (r : Repo) (sha : String)
    (r' : Repo) (res : CherrypickResult)
    (h : cherry_pick g r sha = .ok (r', res)) :
    (res.success = true ∧ res.conflicts = [] ∧
      ∃ c ns, findCommit r sha = some c ∧ res.commit_sha = some ns ∧
        r'.headSha = some ns ∧ r'.state = RepoState.clean ∧
        ∃ nc, r'.odb = nc :: r.odb ∧ nc.sha = ns ∧
          nc.message = some (c.message.getD "Cherry-pick")) ∨
    (res.success = false ∧ res.commit_sha = none ∧ r'.odb = r.odb ∧
      r'.headSha = r.headSha ∧ r'.state = RepoState.cherryPickSequence ∧
      ∃ c ps t, findCommit r sha = some c ∧
        g.merge r c = PickOutcome.conflicted ps t ∧
        res.conflicts = ps ∧ r'.workTree = t ∧ r'.index = ⟨ps, t⟩) :=
  cherry_pick_cases g r sha r' res h

/-- A commit to be picked in the concrete examples. -/
def gcEx : GCommit :=
  { sha := "c1", message := some "feat", author := some "alice", tree := 1,
    parent := none }

/-- The branch-tip commit of the concrete examples. -/
def gcTipEx : GCommit :=
  { sha := "tip", message := some "base", author := some "bob", tree := 2,
    parent := none }

/-- A quiescent repository with `gcTipEx` checked out. -/
def repoEx : Repo :=
  { odb := [gcEx, gcTipEx], headSha := some "tip", workTree := 2,
    index := ⟨[], 2⟩, state := .clean }

/-- An environment whose merge primitive succeeds cleanly. -/
def gitEnvEx : GitEnv :=
  { validOid := fun _ => true, merge := fun _ _ => .clean 3,
    freshSha := fun _ => "new1", userName := some "alice",
    userEmail := some "alice at example" }

/-- The commit `cherry_pick` creates in the clean example. -/
def newCommitEx : GCommit :=
  { sha := "new1", message := some "feat", author := some "alice", tree := 3,
    parent := some "tip" }

/-- The repository after the clean example pick. -/
def repoAfterEx : Repo :=
  { odb := [newCommitEx, gcEx, gcTipEx], headSha := some "new1",
    workTree := 3, index := ⟨[], 3⟩, state := .clean }

/-- The result of the clean example pick. -/
def resOkEx : CherrypickResult :=
  { success := true, conflicts := [], commit_sha := some "new1" }

/-- C4 witness: the concrete clean pick satisfies the dichotomy. -/
theorem cherry_pick_result_spec_witness :
    (resOkEx.success = true ∧ resOkEx.conflicts = [] ∧
      ∃ c ns, findCommit repoEx "c1" = some c ∧
        resOkEx.commit_sha = some ns ∧ repoAfterEx.headSha = some ns ∧
        repoAfterEx.state = RepoState.clean ∧
        ∃ nc, repoAfterEx.odb = nc :: repoEx.odb ∧ nc.sha = ns ∧
          nc.message = some (c.message.getD "Cherry-pick")) ∨
    (resOkEx.success = false ∧ resOkEx.commit_sha = none ∧
      repoAfterEx.odb = repoEx.odb ∧ repoAfterEx.headSha = repoEx.headSha ∧
      repoAfterEx.state = RepoState.cherryPickSequence ∧
      ∃ c ps t, findCommit repoEx "c1" = some c ∧
        gitEnvEx.merge repoEx c = PickOutcome.conflicted ps t ∧
        resOkEx.conflicts = ps ∧ repoAfterEx.workTree = t ∧
        repoAfterEx.index = ⟨ps, t⟩) :=
  cherry_pick_result_spec gitEnvEx repoEx "c1" repoAfterEx resOkEx (by decide)

/-- C5: from the state reached by a conflicting apply on a quiescent
repository, `abort` yields the Clean state, an empty conflict set, and a
working copy with the tree content it had before the apply began. -/
theorem abort_restores_clean (g : GitEnv) (r : Repo) (sha : String)
    (r' : Repo) (res : CherrypickResult)
    (hpick : cherry_pick g r sha = .ok (r', res))
    (hconf : res.success = false)
    (hquiet : ∃ c, r.headSha.bind (findCommit r) = some c ∧
      r.workTree = c.tree) :
    ∃ r2, abort_cherry_pick r' = .ok r2 ∧ r2.state = RepoState.clean ∧
      r2.workTree = r.workTree ∧ r2.index.conflicts = [] := by
  rcases cherry_pick_cases g r sha r' res hpick with hL | hR
  · rw [hL.1] at hconf
    cases hconf
  · obtain ⟨-, -, hodb, hhead, -, -⟩ := hR
    obtain ⟨c, hc, hwt⟩ := hquiet
    have hb : ({ r' with state := RepoState.clean } : Repo).headSha.bind
        (findCommit { r' with state := RepoState.clean }) = some c := by
      show r'.headSha.bind
        (fun s => r'.odb.find? (fun cc => cc.sha == s)) = some c
      rw [hhead, hodb]
      exact hc
    refine ⟨{ r' with state := RepoState.clean, workTree := c.tree,
                      index := ⟨[], c.tree⟩ }, ?_, rfl, hwt.symm, rfl⟩
    simp [abort_cherry_pick, hb]

/-- An environment whose merge primitive reports a path conflict. -/
def gitEnvConflictEx : GitEnv :=
  { validOid := fun _ => true,
    merge := fun _ _ => .conflicted ["src/lib.rs"] 7,
    freshSha := fun _ => "new1", userName := some "alice",
    userEmail := some "alice at example" }

/-- The repository after the conflicting example pick. -/
def repoConflictedEx : Repo :=
  { odb := [gcEx, gcTipEx], headSha := some "tip", workTree := 7,
    index := ⟨["src/lib.rs"], 7⟩, state := .cherryPickSequence }

/-- The result of the conflicting example pick. -/
def resConflictEx : CherrypickResult :=
  { success := false, conflicts := ["src/lib.rs"], commit_sha := none }

/-- C5 witness: aborting the concrete conflicted pick restores the
pre-apply working tree. -/
theorem abort_restores_clean_witness :
    ∃ r2, abort_cherry_pick repoConflictedEx = .ok r2 ∧
      r2.state = RepoState.clean ∧ r2.workTree = repoEx.workTree ∧
      r2.index.conflicts = [] :=
  abort_restores_clean gitEnvConflictEx repoEx "c1" repoConflictedEx
    resConflictEx (by decide) rfl ⟨gcTipEx, by decide, rfl⟩

/-- `ui::state::Screen` (src/ui/state.rs:4-9). -/
inductive Screen where
  | mainMenu
  | prList
  | progress
  | error
  deriving Repr, DecidableEq

/-- The collaborators `App::cherry_pick_pr` drives: branch checkout and
per-commit cherry-pick on the local repository, label update and comment
posting on the remote. -/
structure PickEnv where
  checkout_branch : String → Except String Unit
  cherry_pick : String → Except String CherrypickResult
  update_pr_labels : Except String Unit
  add_cherry_pick_comment : List String → Except String Unit

/-- Result of the per-commit loop of `cherry_pick_pr`
(src/ui/app.rs:297-330): shas passed to the git layer in order, new
commit ids collected, the `success` flag, the error message set, and the
conflict set surfaced. -/
structure LoopResult where
  attempted : List String
  picked : List String
  success : Bool
  message : Option String
  conflicts : List String
  deriving Repr, DecidableEq

/-- The `for commit in &pr.commits` loop (src/ui/app.rs:301-330): stop
at the first conflict or per-commit error; on a clean pick push the new
sha (when present) and continue. -/
def pickCommits (env : PickEnv) : List CommitInfo → LoopResult
  | [] =>
    { attempted := [], picked := [], success := true, message := none,
      conflicts := [] }
  | commit :: rest =>
    match env.cherry_pick commit.sha with
    | .ok result =>
      if result.success then
        let next := pickCommits env rest
        { next with
            attempted := commit.sha :: next.attempted,
            picked :=
              match result.commit_sha with
              | some sha => sha :: next.picked
              | none => next.picked }
      else
        { attempted := [commit.sha], picked := [], success := false,
          message := some ("Conflicts in commit " ++ short_sha commit.sha ++
            ": please resolve manually"),
          conflicts := result.conflicts }
    | .error e =>
      { attempted := [commit.sha], picked := [], success := false,
        message := some ("Failed to cherry-pick commit " ++
          short_sha commit.sha ++ ": " ++ e),
        conflicts := [] }

/-- Observable outcome of one `cherry_pick_pr` run. -/
structure AppOutcome where
  attempted : List String
  cherry_picked_commits : List String
  success : Bool
  message : Option String
  surfaced_conflicts : List String
  labels_called : Bool
  label_update_error : Option String
  comment_called : Bool
  comment_error : Option String
  final_screen : Screen
  deriving Repr, DecidableEq

/-- `App::cherry_pick_pr` (src/ui/app.rs:274-357): check out the target
branch (failure aborts this change-request), apply the commits in order,
and only on full success update the labels and post the comment — both
best-effort, their errors only logged. -/
def cherry_pick_pr (config : Config) (env : PickEnv) (pr : PrInfo) :
    AppOutcome :=
  match env.checkout_branch config.github.target_branch with
  | .error e =>
    { attempted := [], cherry_picked_commits := [], success := false,
      message := some ("Failed to checkout target branch: " ++ e),
      surfaced_conflicts := [], labels_called := false,
      label_update_error := none, comment_called := false,
      comment_error := none, final_screen := .error }
  | .ok _ =>
    let lr := pickCommits env pr.commits
    if lr.success then
      { attempted := lr.attempted, cherry_picked_commits := lr.picked,
        success := true,
        message := some ("Successfully cherry-picked PR #" ++
          toString pr.number),
        surfaced_conflicts := [], labels_called := true,
        label_update_error :=
          match env.update_pr_labels with
          | .error e => some e
          | .ok _ => none,
        comment_called := true,
        comment_error :=
          match env.add_cherry_pick_comment lr.picked with
          | .error e => some e
          | .ok _ => none,
        final_screen := .prList }
    else
      { attempted := lr.attempted, cherry_picked_commits := lr.picked,
        success := false, message := lr.message,
        surfaced_conflicts := lr.conflicts, labels_called := false,
        label_update_error := none, comment_called := false,
        comment_error := none, final_screen := .error }

/-- C3: with commits [c1, c2, c3] where c1 applies and c2 conflicts, the
orchestrator applies them in order, reports c1 as applied and c2's
conflicting paths, never attempts c3, and issues neither the label
update nor the comment. -/
theorem orchestrator_stops_at_first_conflict (config : Config)
    (env : PickEnv) (pr : PrInfo) (c1 c2 c3 : CommitInfo) (s1 : String)
    (ps : List String)
    (hcommits : pr.commits = [c1, c2, c3])
    (hco : env.checkout_branch config.github.target_branch = .ok ())
    (h1 : env.cherry_pick c1.sha =
      .ok { success := true, conflicts := [], commit_sha := some s1 })
    (h2 : env.cherry_pick c2.sha =
      .ok { success := false, conflicts := ps, commit_sha := none }) :
    (cherry_pick_pr config env pr).attempted = [c1.sha, c2.sha] ∧
    (cherry_pick_pr config env pr).cherry_picked_commits = [s1] ∧
    (cherry_pick_pr config env pr).surfaced_conflicts = ps ∧
    (cherry_pick_pr config env pr).success = false ∧
    (cherry_pick_pr config env pr).labels_called = false ∧
    (cherry_pick_pr config env pr).comment_called = false := by
  simp [cherry_pick_pr, hco, hcommits, pickCommits, h1, h2]

lemma pickCommits_success (env : PickEnv) :
    ∀ cs : List CommitInfo,
      (∀ c ∈ cs, ∃ cf osha, env.cherry_pick c.sha =
        .ok { success := true, conflicts := cf, commit_sha := osha }) →
      (pickCommits env cs).success = true := by
  intro cs
  induction cs with
  | nil => intro _; rfl
  | cons c rest ih =>
      intro hall
      obtain ⟨cf, osha, hc⟩ := hall c (List.mem_cons_self c rest)
      have hrest := fun c hc => hall c (List.mem_cons_of_mem _ hc)
      simp [pickCommits, hc, ih hrest]

/-- C8: when the target branch checks out and every commit applies
cleanly, the orchestrator reports success and lands on the PR list, and
both post-success remote calls are issued — whatever their results,
including failures, which are only recorded (logged), never
propagated. -/
theorem orchestrator_swallows_post_success_failures (config : Config)
    (env : PickEnv) (pr : PrInfo)
    (hco : env.checkout_branch config.github.target_branch = .ok ())
    (hall : ∀ c ∈ pr.commits, ∃ cf osha,
      env.cherry_pick c.sha =
        .ok { success := true, conflicts := cf, commit_sha := osha }) :
    (cherry_pick_pr config env pr).success = true ∧
    (cherry_pick_pr config env pr).labels_called = true ∧
    (cherry_pick_pr config env pr).comment_called = true ∧
    (cherry_pick_pr config env pr).final_screen = Screen.prList := by
  have hs := pickCommits_success env pr.commits hall
  simp [cherry_pick_pr, hco, hs]

/-- Three commits of the concrete change-request. -/
def commitInfoEx1 : CommitInfo :=
  { sha := "c1sha", message := "m1", author := "alice", date := 0 }

/-- Second commit (the conflicting one in the C3 scenario). -/
def commitInfoEx2 : CommitInfo :=
  { sha := "c2sha", message := "m2", author := "alice", date := 1 }

/-- Third commit (never attempted in the C3 scenario). -/
def commitInfoEx3 : CommitInfo :=
  { sha := "c3sha", message := "m3", author := "alice", date := 2 }

/-- A concrete change-request with three commits. -/
def prInfoEx : PrInfo :=
  { number := 5, title := "T", author := "alice", created_at := 0,
    updated_at := 0, labels := ["S12", "DEV", "pending cherrypick"],
    commits := [commitInfoEx1, commitInfoEx2, commitInfoEx3],
    head_sha := "c3sha", base_ref := "main", head_ref := "feature" }

/-- An environment where the first commit applies and the second
conflicts. -/
def pickEnvConflictEx : PickEnv :=
  { checkout_branch := fun _ => .ok (),
    cherry_pick := fun sha =>
      if sha == "c1sha" then
        .ok { success := true, conflicts := [], commit_sha := some "n1" }
      else
        .ok { success := false, conflicts := ["src/lib.rs"],
              commit_sha := none },
    update_pr_labels := .ok (),
    add_cherry_pick_comment := fun _ => .ok () }

/-- C3 witness: the concrete conflicting run, fully evaluated. -/
theorem orchestrator_stops_at_first_conflict_witness :
    (cherry_pick_pr cfgEx pickEnvConflictEx prInfoEx).attempted =
        ["c1sha", "c2sha"] ∧
    (cherry_pick_pr cfgEx pickEnvConflictEx prInfoEx).cherry_picked_commits =
        ["n1"] ∧
    (cherry_pick_pr cfgEx pickEnvConflictEx prInfoEx).surfaced_conflicts =
        ["src/lib.rs"] ∧
    (cherry_pick_pr cfgEx pickEnvConflictEx prInfoEx).success = false ∧
    (cherry_pick_pr cfgEx pickEnvConflictEx prInfoEx).labels_called = false ∧
    (cherry_pick_pr cfgEx pickEnvConflictEx prInfoEx).comment_called =
        false :=
  orchestrator_stops_at_first_conflict cfgEx pickEnvConflictEx prInfoEx
    commitInfoEx1 commitInfoEx2 commitInfoEx3 "n1" ["src/lib.rs"]
    rfl rfl (by decide) (by decide)

/-- An environment where every commit applies cleanly but both
post-success remote calls fail. -/
def pickEnvPostFailEx : PickEnv :=
  { checkout_branch := fun _ => .ok (),
    cherry_pick := fun sha =>
      .ok { success := true, conflicts := [], commit_sha := some sha },
    update_pr_labels := .error "label api down",
    add_cherry_pick_comment := fun _ => .error "comment api down" }

/-- C8 witness: failing label/comment calls do not spoil the reported
success on the concrete run. -/
theorem orchestrator_swallows_post_success_failures_witness :
    (cherry_pick_pr cfgEx pickEnvPostFailEx prInfoEx).success = true ∧
    (cherry_pick_pr cfgEx pickEnvPostFailEx prInfoEx).labels_called = true ∧
    (cherry_pick_pr cfgEx pickEnvPostFailEx prInfoEx).comment_called = true ∧
    (cherry_pick_pr cfgEx pickEnvPostFailEx prInfoEx).final_screen =
        Screen.prList :=
  orchestrator_swallows_post_success_failures cfgEx pickEnvPostFailEx
    prInfoEx rfl
    (fun c _ => ⟨[], some c.sha, rfl⟩)
